import Mathlib

/-!
Verification of the SEPA screening system's core numeric components.

The Python sources are shallowly embedded over `ℚ` (pandas/NumPy floats are
exact rationals here; `NaN` cells are `Option.none`).  Bar series are lists,
oldest first, mirroring ascending-date DataFrames.  Rolling windows follow the
pandas default `min_periods = window` (a position gets `none` until a full
window is available).
-/

unseal Rat.add Rat.mul Rat.sub Rat.inv Rat.ofScientific

/-- Bar embeds one OHLCV row: the columns the screened code reads. -/
structure Bar where
  high : ℚ
  low : ℚ
  close : ℚ
  volume : ℚ
deriving DecidableEq, Inhabited

/-- Kernel-reducible max of two rationals. -/
def qmax (a b : ℚ) : ℚ := if a ≤ b then b else a

/-- Kernel-reducible min of two rationals. -/
def qmin (a b : ℚ) : ℚ := if b ≤ a then b else a

/-- Kernel-reducible absolute value of a rational. -/
def qabs (q : ℚ) : ℚ := if q < 0 then -q else q

/-- Sum of a list of rationals (`Series.sum`). -/
def listSum (l : List ℚ) : ℚ := l.foldl (· + ·) 0

/-- Maximum of a nonempty list (`Series.max`, `ndarray.max`); 0 on `[]`. -/
def listMax : List ℚ → ℚ
  | [] => 0
  | x :: xs => xs.foldl qmax x

/-- Minimum of a nonempty list (`Series.min`); 0 on `[]`. -/
def listMin : List ℚ → ℚ
  | [] => 0
  | x :: xs => xs.foldl qmin x

/-- Rolling window statistic, pandas `rolling(w)` with the default
`min_periods = w`: position `i` holds `f` of the trailing `w`-element window
once `i + 1 ≥ w`, and `none` (NaN) before that. -/
def rollingOpt (f : List ℚ → ℚ) (w : ℕ) (l : List ℚ) : List (Option ℚ) :=
  (List.range l.length).map fun i =>
    if w ≤ i + 1 then some (f ((l.take (i + 1)).drop (i + 1 - w))) else none

/-- Rolling mean (`rolling(w).mean()`), full windows only. -/
def rollingMean (w : ℕ) (l : List ℚ) : List (Option ℚ) :=
  rollingOpt (fun s => listSum s / (w : ℚ)) w l

/-! ## sepa/patterns.py — vcp_mask -/

/-- NumPy `tr[max(0, i - lookback) : i + 1].max()` from the `vcp_mask` loop. -/
def windowMax (tr : List ℚ) (lookback i : ℕ) : ℚ :=
  listMax ((tr.take (i + 1)).drop (i - lookback))

/-- Loop body of `vcp_mask`: walks the index list carrying
`(running, prev_peak)`; `prev_peak = none` embeds the initial NaN, replaced by
the trailing-window max on the first iteration.  Emits `contr_cnt[i]` per
index. -/
def contrCntGo (tr : List ℚ) (lookback : ℕ) (ratio : ℚ) :
    ℕ → Option ℚ → List ℕ → List ℕ
  | _, _, [] => []
  | running, prevPeak, i :: rest =>
    let trI := tr.getD i 0
    let peak := windowMax tr lookback i
    let prev := prevPeak.getD peak
    if trI < prev * ratio then
      (running + 1) :: contrCntGo tr lookback ratio (running + 1) (some trI) rest
    else
      running :: contrCntGo tr lookback ratio running (some prev) rest

/-- The `contr_cnt` array computed by the `for i, tr_val in enumerate(tr)`
loop of `vcp_mask`. -/
def contr_cnt (tr : List ℚ) (lookback : ℕ) (ratio : ℚ) : List ℕ :=
  contrCntGo tr lookback ratio 0 none (List.range tr.length)

/-- `sepa.patterns.vcp_mask`: all-False for short series, else
`contr_cnt ≥ min_contractions` AND `High ≤ rolling-pivot-high × (1 − pct)`
per bar (a NaN pivot, i.e. an unfilled window, compares False). -/
def vcp_mask (df : List Bar) (lookback min_contractions : ℕ)
    (ratio price_near_high_pct : ℚ) : List Bool :=
  if df.length < lookback + 1 then List.replicate df.length false
  else
    let high := df.map Bar.high
    let low := df.map Bar.low
    let tr := List.zipWith (fun h l => (h - l) / h) high low
    let cnt := contr_cnt tr lookback ratio
    let pivot_hi := rollingOpt listMax lookback high
    (List.range df.length).map fun i =>
      decide (min_contractions ≤ cnt.getD i 0) &&
      (match pivot_hi.getD i none with
       | none => false
       | some p => decide (high.getD i 0 ≤ p * (1 - price_near_high_pct)))

/-- Clean left-to-right scan in which the peak changes only on a contraction
(reset to the current fraction) and is seeded with the first bar's fraction.
This is the amended description of the `vcp_mask` counter. -/
def contrScanGo (ratio : ℚ) : ℕ → ℚ → List ℚ → List ℕ
  | _, _, [] => []
  | running, peak, t :: rest =>
    if t < peak * ratio then (running + 1) :: contrScanGo ratio (running + 1) t rest
    else running :: contrScanGo ratio running peak rest

/-- Entry point of the amended scan: the first bar's trailing-window max is the
bar's own fraction, which seeds the peak. -/
def contrScan (ratio : ℚ) : List ℚ → List ℕ
  | [] => []
  | t :: rest =>
    if t < t * ratio then 1 :: contrScanGo ratio 1 t rest
    else 0 :: contrScanGo ratio 0 t rest

/-- Scan following the spec's words for C1: on a contraction increment and
reset the peak to the current fraction; otherwise the peak becomes the max
fraction observed in the trailing lookback window. -/
def specContrScanGo (tr : List ℚ) (lookback : ℕ) (ratio : ℚ) :
    ℕ → ℚ → List ℕ → List ℕ
  | _, _, [] => []
  | running, peak, i :: rest =>
    let t := tr.getD i 0
    if t < peak * ratio then
      (running + 1) :: specContrScanGo tr lookback ratio (running + 1) t rest
    else
      running :: specContrScanGo tr lookback ratio running (windowMax tr lookback i) rest

/-- Spec-described contraction counter (see `specContrScanGo`), peak seeded
with the first bar's trailing-window max. -/
def specContrScan (tr : List ℚ) (lookback : ℕ) (ratio : ℚ) : List ℕ :=
  specContrScanGo tr lookback ratio 0 (windowMax tr lookback 0) (List.range tr.length)

/-! ## sepa_trade/strategy/vcp_breakout.py — VCPStrategy -/

/-- Signal returned by `VCPStrategy.check_today`. -/
structure BreakoutSignal where
  breakout_price : ℚ
  atr : ℚ
deriving DecidableEq

/-- True-Range series built in `VCPStrategy.__init__`: the row-wise max of
High−Low, |High−prevClose|, |Low−prevClose|; on the first bar the shifted
close is NaN and the skipna row max leaves High−Low. -/
def trList : List Bar → List ℚ
  | [] => []
  | b :: rest =>
    (b.high - b.low) ::
      (rest.zip (b :: rest)).map fun pc =>
        qmax (pc.1.high - pc.1.low)
          (qmax (qabs (pc.1.high - pc.2.close)) (qabs (pc.1.low - pc.2.close)))

/-- The `ATR10` column of `VCPStrategy.__init__`: `TR.rolling(10).mean()`. -/
def atr10 (df : List Bar) : List (Option ℚ) := rollingMean 10 (trList df)

/-- The `Range` column: High − Low per bar. -/
def rangeList (df : List Bar) : List ℚ := df.map fun b => b.high - b.low

/-- The `all(...)` generator of `_is_volatility_contracting`: consecutive
ranges must each shrink below the previous times `shrink_ratio`. -/
def shrinkChainB (shrink_ratio : ℚ) : List ℚ → Bool
  | [] => true
  | [_] => true
  | a :: b :: rest => decide (b < a * shrink_ratio) && shrinkChainB shrink_ratio (b :: rest)

/-- `VCPStrategy._is_volatility_contracting`: the `shrink_steps + 1` ranges
just before the final bar must each shrink below the previous times
`shrink_ratio`. -/
def VCPStrategy.is_volatility_contracting (df : List Bar) (shrink_steps : ℕ)
    (shrink_ratio : ℚ) : Bool :=
  let required_days := shrink_steps + 1
  if df.length < required_days + 1 then false
  else
    let ranges := ((rangeList df).take (df.length - 1)).drop (df.length - 1 - required_days)
    shrinkChainB shrink_ratio ranges

/-- `VCPStrategy.check_today`: pivot breakout (Close not below the trailing
20-bar high of yesterday back, times 1.01), volume surge (Volume at least the
trailing 20-bar average times `volume_ratio`), and range contraction; on
success the signal carries the final Close and `ATR10.iloc[-2]` (present
whenever the series has at least 60 bars, hence the `getD 0` is never the
fallback on the guarded path). -/
def VCPStrategy.check_today (df : List Bar) (shrink_steps : ℕ)
    (shrink_ratio volume_ratio : ℚ) : Option BreakoutSignal :=
  if df.length < 60 then none
  else
    let n := df.length
    let today := df.getD (n - 1) default
    let pivot_high := listMax (((df.map Bar.high).take (n - 1)).drop (n - 21))
    if today.close < pivot_high * (101 / 100) then none
    else
      let avg_volume_20d := listSum (((df.map Bar.volume).take (n - 1)).drop (n - 21)) / 20
      let volume_threshold := avg_volume_20d * volume_ratio
      if ¬ (volume_threshold ≤ today.volume) then none
      else if ¬ VCPStrategy.is_volatility_contracting df shrink_steps shrink_ratio then none
      else some ⟨today.close, ((atr10 df).getD (n - 2) none).getD 0⟩

/-- Close of the final bar. -/
def lastClose (df : List Bar) : ℚ := (df.getD (df.length - 1) default).close

/-- Volume of the final bar. -/
def lastVolume (df : List Bar) : ℚ := (df.getD (df.length - 1) default).volume

/-- Low of the final bar. -/
def lastLow (df : List Bar) : ℚ := (df.getD (df.length - 1) default).low

/-- Claim-side pivot for C3: max High over the trailing 20 bars that precede
the final bar. -/
def specPivotHigh (df : List Bar) : ℚ :=
  listMax (((df.map Bar.high).drop (df.length - 21)).take 20)

/-- Claim-side trailing average volume for C3: mean Volume of the 20 bars
preceding the final bar. -/
def specAvgVolume (df : List Bar) : ℚ :=
  listSum (((df.map Bar.volume).drop (df.length - 21)).take 20) / 20

/-- Claim-side contraction chain for C3: the `shrink_steps + 1` high-low
ranges ending one bar before the final each shrink below the previous times
`shrink_ratio`. -/
def specShrinkChain (df : List Bar) (shrink_steps : ℕ) (shrink_ratio : ℚ) : Prop :=
  List.Chain' (fun a b => b < a * shrink_ratio)
    (((rangeList df).drop (df.length - 2 - shrink_steps)).take (shrink_steps + 1))

instance (df : List Bar) (shrink_steps : ℕ) (shrink_ratio : ℚ) :
    Decidable (specShrinkChain df shrink_steps shrink_ratio) :=
  decidable_of_iff
    (shrinkChainB shrink_ratio
      (((rangeList df).drop (df.length - 2 - shrink_steps)).take (shrink_steps + 1)) = true)
    (by
      unfold specShrinkChain
      generalize ((rangeList df).drop (df.length - 2 - shrink_steps)).take (shrink_steps + 1) = l
      induction l with
      | nil => simp [shrinkChainB]
      | cons a rest ih =>
        cases rest with
        | nil => simp [shrinkChainB]
        | cons b rest2 =>
          simp only [shrinkChainB, Bool.and_eq_true, decide_eq_true_eq,
            List.chain'_cons] at ih ⊢
          rw [ih])

/-- Claim-side ATR for C3: the 10-period rolling mean of True Range evaluated
at the bar before the final one. -/
def specAtrPrev (df : List Bar) : ℚ :=
  listSum (((trList df).drop (df.length - 11)).take 10) / 10

/-! ## sepa_trade/rs.py — calc_rs_rating, compute_rs_universe -/

/-- Fractional (average-tie) percentile score of `x` within the value pool
`vs`, as produced by pandas `rank(method = default average, pct=True) * 100`:
the average ordinal rank of the tie group of `x` is
`countP (y < x) + (count of y = x + 1)/2`, divided by the pool size. -/
def rankScore (vs : List ℚ) (x : ℚ) : ℚ :=
  100 * (((vs.countP fun y => decide (y < x)) : ℚ) +
    (((vs.countP fun y => decide (y = x)) : ℚ) + 1) / 2) / (vs.length : ℚ)

/-- `sepa_trade.rs.calc_rs_rating`: drop the NaN returns, percentile-rank the
rest (average ties, scaled to 0–100), and reindex so NaN positions stay
absent. -/
def calc_rs_rating (percent_returns : List (Option ℚ)) : List (Option ℚ) :=
  let valid := percent_returns.filterMap id
  percent_returns.map (Option.map (rankScore valid))

/-- Per-column period return: `past_prices` / `latest_prices` are the frame
rows `iloc[-lookback-1]` / `iloc[-1]` of one column (`none` beyond the
column's length), a non-positive past price is turned into NaN before the
division, and a NaN on either side propagates into the return. -/
def colPct (pastRow latestRow : ℕ) (s : List ℚ) : Option ℚ :=
  match s[pastRow]?, s[latestRow]? with
  | some past, some latest =>
    if past ≤ 0 then none else some ((latest / past - 1) * 100)
  | _, _ => none

/-- Key order used by `pd.concat` on a dict: sorted ticker names. -/
def sortByTicker (u : List (String × List ℚ)) : List (String × List ℚ) :=
  List.insertionSort (fun a b => a.1 ≤ b.1) u

/-- `sepa_trade.rs.compute_rs_universe` over a universe given as an
association list of ticker to close series (each series is a plain
RangeIndex-style column; `pd.concat` pads shorter columns with trailing NaN
rows up to the longest length).  `pd.concat` of an empty mapping raises
`ValueError`, embedded as the `Except.error` branch.  The dropna threshold
keeps a column iff its non-NaN count — its original length — is at least
`lookback + 1`; a kept column reads its past and latest prices at frame rows
`maxlen − 1 − lookback` and `maxlen − 1` (`none` past the column's length),
a non-positive past price becomes NaN, and `calc_rs_rating` scores the
surviving returns before reindexing over every column. -/
def compute_rs_universe (close_dict : List (String × List ℚ)) (lookback : ℕ) :
    Except String (List (String × Option ℚ)) :=
  if close_dict.isEmpty then Except.error "No objects to concatenate"
  else
    let cols := sortByTicker close_dict
    let maxlen := (cols.map fun p => p.2.length).foldl Nat.max 0
    let valid := cols.filter fun p => decide (lookback + 1 ≤ p.2.length)
    if valid.isEmpty then Except.ok (cols.map fun p => (p.1, none))
    else
      let pastRow := maxlen - 1 - lookback
      let latestRow := maxlen - 1
      let pcts : List (String × Option ℚ) := valid.map fun p =>
        (p.1, colPct pastRow latestRow p.2)
      let ratings := calc_rs_rating (pcts.map fun q => q.2)
      let scored := List.zipWith (fun (p : String × Option ℚ) r => (p.1, r)) pcts ratings
      Except.ok (cols.map fun p => (p.1, ((scored.lookup p.1).getD none)))

/-- Claim-side base price for C4: the ticker's own `close[-1-lookback]`. -/
def specBase (lookback : ℕ) (s : List ℚ) : ℚ := s.getD (s.length - 1 - lookback) 0

/-- Claim-side period return for C4: `(close[-1]/close[-1-lookback] - 1) * 100`
out of the ticker's own series. -/
def specReturn (lookback : ℕ) (s : List ℚ) : ℚ :=
  (s.getD (s.length - 1) 0 / s.getD (s.length - 1 - lookback) 0 - 1) * 100

/-- Claim-side pool of valid returns for C4: the returns of tickers with at
least `lookback + 1` values and positive base price. -/
def specValidReturns (u : List (String × List ℚ)) (lookback : ℕ) : List ℚ :=
  (u.filter fun p =>
      decide (lookback + 1 ≤ p.2.length) && decide (0 < specBase lookback p.2)).map
    fun p => specReturn lookback p.2

/-- Claim-side score for C4: valid tickers receive the fractional percentile
rank of their own return within the valid pool, others receive no score. -/
def specScore (u : List (String × List ℚ)) (lookback : ℕ)
    (p : String × List ℚ) : Option ℚ :=
  if lookback + 1 ≤ p.2.length ∧ 0 < specBase lookback p.2 then
    some (rankScore (specValidReturns u lookback) (specReturn lookback p.2))
  else none

/-! ## sepa_trade/technical.py — TrendTemplate -/

/-- Comparison `a > b` against an optional (possibly NaN) value: any
comparison with NaN is False in pandas/NumPy. -/
def gtOpt (a : ℚ) : Option ℚ → Bool
  | none => false
  | some b => decide (b < a)

/-- Non-strict monotonicity check over consecutive values
(`Series.is_monotonic_increasing`). -/
def nondecB : List ℚ → Bool
  | [] => true
  | [_] => true
  | a :: b :: rest => decide (a ≤ b) && nondecB (b :: rest)

/-- `TrendTemplate._ma200_is_rising` / `WeeklyTrendTemplate._ma40w_rising`:
drop the NaN head of the moving-average column and require the last
`lookback` values to be non-strictly increasing (`is_monotonic_increasing`);
False when fewer than `lookback` values exist. -/
def maIsRising (ma : List (Option ℚ)) (lookback : ℕ) : Bool :=
  let s := ma.filterMap id
  if s.length < lookback then false
  else nondecB (s.drop (s.length - lookback))

/-- `TrendTemplate.passes`.  With fewer than 252 closes it fails outright,
so every moving average read below is present and is unwrapped with `getD 0`.
When either percent argument is missing the 252-bar rolling extremes are
computed and guarded against a non-positive low or high before dividing. -/
def TrendTemplate.passes (closes : List ℚ) (pct_from_low pct_from_high : Option ℚ)
    (ma200_lookback : ℕ) : Bool :=
  if closes.length < 252 then false
  else
    let n := closes.length
    let close := closes.getD (n - 1) 0
    let ma50 := ((rollingMean 50 closes).getD (n - 1) none).getD 0
    let ma150 := ((rollingMean 150 closes).getD (n - 1) none).getD 0
    let ma200 := ((rollingMean 200 closes).getD (n - 1) none).getD 0
    let conds := fun (pfl pfh : ℚ) =>
      decide (ma150 < close) && decide (ma200 < close) &&
      decide (ma200 < ma150) &&
      maIsRising (rollingMean 200 closes) ma200_lookback &&
      decide (ma150 < ma50) && decide (ma200 < ma50) &&
      decide (ma50 < close) &&
      decide (30 ≤ pfl) && decide (pfh ≤ 25)
    match pct_from_low, pct_from_high with
    | some pfl, some pfh => conds pfl pfh
    | pl, ph =>
      let rolling_high := ((rollingOpt listMax 252 closes).getD (n - 1) none).getD 0
      let rolling_low := ((rollingOpt listMin 252 closes).getD (n - 1) none).getD 0
      if rolling_low ≤ 0 ∨ rolling_high ≤ 0 then false
      else
        conds (pl.getD ((close - rolling_low) / rolling_low * 100))
          (ph.getD ((rolling_high - close) / rolling_high * 100))

/-! ## sepa_trade/technical_weekly.py — WeeklyTrendTemplate -/

/-- The weekly `pct_from_low ≥ 30` condition when computed internally:
`(close - low)/low * 100 ≥ 30` where `low` is the 52-week rolling minimum.
The source has no zero guard here; NumPy float semantics apply at `low = 0`:
the quotient is +∞ when the numerator `close` is positive (so the condition
holds), −∞ or NaN otherwise (so it fails).  A NaN rolling low (window not yet
full) compares False. -/
def weeklyPflGe30 (close : ℚ) : Option ℚ → Bool
  | none => false
  | some l => if l = 0 then decide (0 < close) else decide (30 ≤ (close - l) / l * 100)

/-- The weekly `pct_from_high ≤ 25` condition when computed internally:
`(high - close)/high * 100 ≤ 25` with NumPy semantics at `high = 0`: the
quotient is −∞ when `close` is positive (condition holds), +∞ or NaN
otherwise. -/
def weeklyPfhLe25 (close : ℚ) : Option ℚ → Bool
  | none => false
  | some h => if h = 0 then decide (0 < close) else decide ((h - close) / h * 100 ≤ 25)

/-- `WeeklyTrendTemplate.passes`.  `df.iloc[-1]` raises `IndexError` on an
empty frame, embedded as the `Except.error` branch; there is no length guard
and no non-positive-low guard, so moving averages are read as options (NaN
comparisons fail) and the percent conditions follow `weeklyPflGe30` /
`weeklyPfhLe25` when not supplied by the caller. -/
def WeeklyTrendTemplate.passes (closes : List ℚ) (rs_rating : ℚ)
    (pct_from_low pct_from_high : Option ℚ) (ma40w_lookback : ℕ) :
    Except String Bool :=
  if closes.isEmpty then Except.error "single positional indexer is out-of-bounds"
  else
    let n := closes.length
    let close := closes.getD (n - 1) 0
    let ma10 := (rollingMean 10 closes).getD (n - 1) none
    let ma30 := (rollingMean 30 closes).getD (n - 1) none
    let ma40 := (rollingMean 40 closes).getD (n - 1) none
    let rolling_high := (rollingOpt listMax 52 closes).getD (n - 1) none
    let rolling_low := (rollingOpt listMin 52 closes).getD (n - 1) none
    let pflOk := match pct_from_low with
      | some pfl => decide (30 ≤ pfl)
      | none => weeklyPflGe30 close rolling_low
    let pfhOk := match pct_from_high with
      | some pfh => decide (pfh ≤ 25)
      | none => weeklyPfhLe25 close rolling_high
    Except.ok <|
      (gtOpt close ma30 && match ma30 with | none => false | some m => decide (0 < m)) &&
      (gtOpt close ma40 && match ma40 with | none => false | some m => decide (0 < m)) &&
      (match ma30, ma40 with | some a, some b => decide (b < a) | _, _ => false) &&
      maIsRising (rollingMean 40 closes) ma40w_lookback &&
      (match ma10, ma30 with | some a, some b => decide (b < a) | _, _ => false) &&
      (match ma10, ma40 with | some a, some b => decide (b < a) | _, _ => false) &&
      gtOpt close ma10 &&
      pflOk && pfhOk && decide (70 ≤ rs_rating)

/-- Trailing 52-week low of a close series, claim-side for C6. -/
def trailingLow52 (closes : List ℚ) : ℚ := listMin (closes.drop (closes.length - 52))

/-! ## scripts/auto_bot.py — position sizing and the exit decision -/

/-- Python `int()` on a rational: truncation toward zero. -/
def ratTrunc (q : ℚ) : ℤ := if 0 ≤ q then ⌊q⌋ else ⌈q⌉

/-- Risk sizing block of `auto_bot.main`: `risk_per_share = atr * mult`;
skip the candidate when it is non-positive, otherwise
`qty = max(int(cash * risk_pct / risk_per_share), 1)` shares with
`stop_price = breakout_price - risk_per_share`. -/
def riskSize (cash atr breakout_price risk_pct mult : ℚ) : Option (ℤ × ℚ) :=
  let risk_per_share := atr * mult
  if risk_per_share ≤ 0 then none
  else
    let t := ratTrunc (cash * risk_pct / risk_per_share)
    some (if t < 1 then 1 else t, breakout_price - risk_per_share)

/-! ## sepa_trade/strategy/exit_rules.py — ExitStrategy -/

/-- `ExitStrategy.__init__`: fewer than 11 bars raises `ValueError`. -/
def ExitStrategy.init (df : List Bar) (entry_price : ℚ) :
    Except String (List Bar × ℚ) :=
  if df.length < 11 then Except.error "ExitStrategy requires at least 11 bars"
  else Except.ok (df, entry_price)

/-- `ExitStrategy.atr_trail`: False when the latest ATR10 is NaN, else trigger
when the latest Low is strictly below `entry_price - ATR10 * n`. -/
def ExitStrategy.atr_trail (df : List Bar) (entry_price n : ℚ) : Bool :=
  match (atr10 df).getD (df.length - 1) none with
  | none => false
  | some latest_atr => decide (lastLow df < entry_price - latest_atr * n)

/-- Final value of `Close.ewm(span=10, adjust=False).mean()`: the recursive
EMA with `α = 2/(10+1)`, seeded with the first close. -/
def emaGo (a acc : ℚ) : List ℚ → ℚ
  | [] => acc
  | c :: rest => emaGo a ((1 - a) * acc + a * c) rest

/-- Latest `EMA10` value; `none` only for an empty series (the NaN case the
source guards against). -/
def ema10Last : List ℚ → Option ℚ
  | [] => none
  | c :: rest => some (emaGo (2 / 11) c rest)

/-- `ExitStrategy.ema_cross`: False when the latest EMA10 is NaN, else trigger
when the latest Close is strictly below it. -/
def ExitStrategy.ema_cross (df : List Bar) : Bool :=
  match ema10Last (df.map Bar.close) with
  | none => false
  | some latest_ema => decide (lastClose df < latest_ema)

/-- The exit decision of `auto_bot.main`:
`exit_strat.atr_trail(n=ATR_MULT_EXIT) or exit_strat.ema_cross()`. -/
def exitDecision (df : List Bar) (entry_price n : ℚ) : Bool :=
  ExitStrategy.atr_trail df entry_price n || ExitStrategy.ema_cross df

/-- Claim-side ATR for C9: mean True Range of the last 10 bars. -/
def specAtrLast (df : List Bar) : ℚ :=
  listSum ((trList df).drop (df.length - 10)) / 10

/-- Claim-side 10-period EMA of the closes (α = 2/11 recurrence seeded at the
first close). -/
def specEma10 : List ℚ → ℚ
  | [] => 0
  | c :: rest => emaGo (2 / 11) c rest

/-! ## Concrete inputs used by the counterexamples and witnesses -/

/-- Three weekly bars whose True-Range fractions are 1/5, 1, 1/2. -/
def barsC1 : List Bar := [⟨10, 8, 0, 0⟩, ⟨10, 0, 0, 0⟩, ⟨10, 5, 0, 0⟩]

/-- Four bars with fractions 1/2, 3/10, 1/5, 1/10: three successive
contractions at ratio 0.8, final bar back at the pivot high. -/
def barsC2 : List Bar := [⟨10, 5, 0, 0⟩, ⟨10, 7, 0, 0⟩, ⟨10, 8, 0, 0⟩, ⟨10, 9, 0, 0⟩]

/-- Sixty daily bars: constant highs at 100 with contracting ranges before a
final bar closing at exactly `pivot × 1.01 = 101` on 1.5× average volume. -/
def bars60 : List Bar :=
  List.replicate 57 ⟨100, 98, 99, 100⟩ ++
    [⟨100, 991 / 10, 99, 100⟩, ⟨100, 498 / 5, 99, 100⟩, ⟨101, 100, 101, 150⟩]

/-- Eleven identical bars, enough history for the exit rules. -/
def bars11 : List Bar := List.replicate 11 ⟨2, 1, 1, 0⟩

/-- Fifty-two weekly closes 0,1,…,51: trailing 52-week low is 0 while every
moving-average condition of the weekly template holds. -/
def closes52 : List ℚ := (List.range 52).map fun i => (i : ℚ)

/-- Two tickers with unequal history: B has `lookback + 1 = 2` values but its
column is one row shorter than the concatenated frame. -/
def uC4 : List (String × List ℚ) := [("A", [1, 2, 4]), ("B", [1, 3])]

/-! ## Helper lemmas -/

theorem range_map_getD {α : Type} (d : α) :
    ∀ l : List α, (List.range l.length).map (fun i => l.getD i d) = l
  | [] => rfl
  | a :: l => by
    rw [List.length_cons, List.range_succ_eq_map, List.map_cons, List.map_map]
    simp only [Function.comp_def, List.getD_cons_zero, List.getD_cons_succ]
    rw [range_map_getD d l]

theorem contrCntGo_some (tr : List ℚ) (lookback : ℕ) (ratio : ℚ) :
    ∀ (idxs : List ℕ) (running : ℕ) (p : ℚ),
      contrCntGo tr lookback ratio running (some p) idxs =
        contrScanGo ratio running p (idxs.map fun i => tr.getD i 0)
  | [], _, _ => rfl
  | i :: rest, running, p => by
    simp only [contrCntGo, List.map_cons, contrScanGo, Option.getD_some]
    by_cases h : tr.getD i 0 < p * ratio
    · simp only [if_pos h, contrCntGo_some tr lookback ratio rest]
    · simp only [if_neg h, contrCntGo_some tr lookback ratio rest]

/-! ## C1 — the vcp_mask contraction counter -/

/-- C1 counterexample: on fractions 1/5, 1, 1/2 (bars `barsC1`, lookback 2,
ratio 0.8) the spec's scan — peak becomes the trailing-window max on a
non-contraction bar — counts one contraction at the third bar, while the
counter computed by `vcp_mask` counts zero: the code never re-reads the
window max after the first bar. -/
theorem contr_cnt_spec_scan_counterexample :
    contr_cnt [1/5, 1, 1/2] 2 (4/5) = [0, 0, 0] ∧
    specContrScan [1/5, 1, 1/2] 2 (4/5) = [0, 0, 1] ∧
    contr_cnt [1/5, 1, 1/2] 2 (4/5) ≠ specContrScan [1/5, 1, 1/2] 2 (4/5) ∧
    List.zipWith (fun h l => (h - l) / h) (barsC1.map Bar.high) (barsC1.map Bar.low) =
      [1/5, 1, 1/2] ∧
    2 + 1 ≤ barsC1.length := by decide

/-- C1 amended: the counter of `vcp_mask` follows a left-to-right scan whose
peak is seeded with the first bar's fraction (its trailing-window max) and is
reset to the current fraction exactly on contraction bars; on other bars the
peak is left unchanged — the trailing-window max recomputed each iteration is
otherwise unused, so the counter does not depend on the lookback at all. -/
theorem contr_cnt_peak_resets_only_on_contraction (tr : List ℚ) (lookback : ℕ)
    (ratio : ℚ) : contr_cnt tr lookback ratio = contrScan ratio tr := by
  cases tr with
  | nil => rfl
  | cons t rest =>
    have hw : windowMax (t :: rest) lookback 0 = t := by
      simp [windowMax, listMax]
    have hrest : ((List.range rest.length).map Nat.succ).map
        (fun i => (t :: rest).getD i 0) = rest := by
      rw [List.map_map]
      simp only [Function.comp_def, List.getD_cons_succ]
      exact range_map_getD 0 rest
    show contrCntGo (t :: rest) lookback ratio 0 none
        (List.range (t :: rest).length) = _
    rw [List.length_cons, List.range_succ_eq_map]
    simp only [contrCntGo, List.getD_cons_zero, hw, Option.getD_none]
    by_cases h : t < t * ratio
    · simp only [contrScan, if_pos h, contrCntGo_some, hrest]
    · simp only [contrScan, if_neg h, contrCntGo_some, hrest]

/-! ## C2 — the vcp_mask proximity condition -/

/-- C2: on `barsC2` with lookback 3, `min_contractions` 3, ratio 0.8 and
`price_near_high_pct` 0.12 the counter reaches 3 at the final bar and that
bar's High equals the trailing pivot high (so it is within 12% of it, as the
claim, the module docstring and the parameter name require a flagged bar to
be), yet `vcp_mask` flags nothing: the code keeps only bars whose High is at
least 12% BELOW the pivot, the reversed comparison. -/
theorem vcp_mask_near_high_failing_input :
    vcp_mask barsC2 3 3 (4/5) (3/25) = [false, false, false, false] ∧
    contr_cnt (List.zipWith (fun h l => (h - l) / h) (barsC2.map Bar.high)
      (barsC2.map Bar.low)) 3 (4/5) = [0, 1, 2, 3] ∧
    (barsC2.getD 3 default).high = listMax ((barsC2.map Bar.high).drop 1) ∧
    (10 : ℚ) * (1 - 3/25) ≤ (barsC2.getD 3 default).high := by decide

/-! ## C3 — VCPStrategy.check_today -/

/-- Slice commutation: dropping after taking is taking after dropping. -/
theorem drop_take_comm {α : Type} (l : List α) {k m : ℕ} (h : k ≤ m) :
    (l.take m).drop k = (l.drop k).take (m - k) := by
  rw [List.take_drop, Nat.add_sub_cancel' h]

/-- Reading an in-range position of a tabulated list. -/
theorem getD_range_map {α : Type} (f : ℕ → α) (d : α) {i n : ℕ} (h : i < n) :
    ((List.range n).map f).getD i d = f i := by
  rw [List.getD_eq_getElem?_getD, List.getElem?_map, List.getElem?_range h]
  rfl

/-- The boolean shrink chain agrees with the decidable chain proposition. -/
theorem shrinkChainB_eq_decide (sr : ℚ) :
    ∀ l : List ℚ, shrinkChainB sr l = decide (List.Chain' (fun a b => b < a * sr) l)
  | [] => by simp [shrinkChainB]
  | [a] => by simp [shrinkChainB]
  | a :: b :: rest => by
    simp only [shrinkChainB, shrinkChainB_eq_decide sr (b :: rest), List.chain'_cons,
      Bool.decide_and]

/-- The True-Range column is as long as the bar series. -/
theorem trList_length (df : List Bar) : (trList df).length = df.length := by
  cases df with
  | nil => rfl
  | cons b rest =>
    simp only [trList, List.length_cons, List.length_map, List.length_zip]
    omega

set_option maxRecDepth 100000 in
/-- C3 counterexample: `bars60` closes exactly at `pivot × 1.01` with a
volume surge and contracting ranges; the claim says a Close exactly equal to
`pivot × 1.01` yields no signal, but `check_today` (whose rejection test is
`Close < pivot * 1.01`) emits one. -/
theorem check_today_margin_counterexample :
    VCPStrategy.check_today bars60 2 (1/2) (3/2) = some ⟨101, 9/5⟩ ∧
    lastClose bars60 = specPivotHigh bars60 * (101/100) := by decide

/-- C3 amended: for a series of at least 60 bars (and enough bars for the
shrink window), `check_today` returns a signal exactly when the final Close
is at least — not strictly above — the trailing 20-bar pivot high times 1.01,
the final Volume is at least the trailing 20-bar average times
`volume_ratio`, and the `shrink_steps + 1` ranges before the final bar each
shrink below the previous times `shrink_ratio`; the signal carries the final
Close and the 10-period rolling mean of True Range at the bar before the
final one.  Equality with `pivot × 1.01` yields a signal; removing any
conjunct (for example the volume surge) yields none. -/
theorem check_today_amended (df : List Bar) (shrink_steps : ℕ)
    (shrink_ratio volume_ratio : ℚ) (h60 : 60 ≤ df.length)
    (hss : shrink_steps + 2 ≤ df.length) :
    VCPStrategy.check_today df shrink_steps shrink_ratio volume_ratio =
      if specPivotHigh df * (101 / 100) ≤ lastClose df ∧
          specAvgVolume df * volume_ratio ≤ lastVolume df ∧
          specShrinkChain df shrink_steps shrink_ratio then
        some ⟨lastClose df, specAtrPrev df⟩
      else none := by
  have hn : ¬ df.length < 60 := by omega
  have hpiv : ((df.map Bar.high).take (df.length - 1)).drop (df.length - 21) =
      ((df.map Bar.high).drop (df.length - 21)).take 20 := by
    rw [drop_take_comm _ (by omega)]
    congr 1
    omega
  have hvol : ((df.map Bar.volume).take (df.length - 1)).drop (df.length - 21) =
      ((df.map Bar.volume).drop (df.length - 21)).take 20 := by
    rw [drop_take_comm _ (by omega)]
    congr 1
    omega
  have hcontr : (VCPStrategy.is_volatility_contracting df shrink_steps shrink_ratio
      = true) ↔ specShrinkChain df shrink_steps shrink_ratio := by
    unfold VCPStrategy.is_volatility_contracting specShrinkChain
    rw [if_neg (by omega : ¬ df.length < shrink_steps + 1 + 1)]
    have e1 : df.length - 1 - (shrink_steps + 1) = df.length - 2 - shrink_steps := by
      omega
    rw [e1, drop_take_comm _ (by omega)]
    have e2 : df.length - 1 - (df.length - 2 - shrink_steps) = shrink_steps + 1 := by
      omega
    rw [e2, shrinkChainB_eq_decide]
    exact decide_eq_true_iff
  have hatr : ((atr10 df).getD (df.length - 2) none).getD 0 = specAtrPrev df := by
    unfold atr10 rollingMean rollingOpt specAtrPrev
    rw [getD_range_map _ _ (by rw [trList_length]; omega)]
    rw [if_pos (by omega : 10 ≤ df.length - 2 + 1)]
    rw [Option.getD_some]
    rw [drop_take_comm _ (by omega)]
    have e1 : df.length - 2 + 1 - 10 = df.length - 11 := by omega
    rw [e1]
    have e2 : df.length - 2 + 1 - (df.length - 11) = 10 := by omega
    rw [e2]
    norm_num
  simp only [VCPStrategy.check_today, if_neg hn, hpiv, hvol, hcontr,
    decide_eq_true_eq, hatr]
  simp only [specPivotHigh, specAvgVolume, lastClose, lastVolume]
  split_ifs <;>
    first
      | rfl
      | (exfalso; push_neg at *; tauto)
      | (exfalso
         rcases ‹_ ∧ _ ∧ _› with ⟨ha, hb, hc⟩
         push_neg at *
         linarith)

/-- C3 witness: the amended characterisation applied to the concrete
60-bar series. -/
theorem check_today_amended_witness :
    VCPStrategy.check_today bars60 2 (1/2) (3/2) =
      if specPivotHigh bars60 * (101 / 100) ≤ lastClose bars60 ∧
          specAvgVolume bars60 * (3/2) ≤ lastVolume bars60 ∧
          specShrinkChain bars60 2 (1/2) then
        some ⟨lastClose bars60, specAtrPrev bars60⟩
      else none :=
  check_today_amended bars60 2 (1/2) (3/2) (by decide) (by decide)

/-! ## C4 / C10 — relative-strength ranking -/

theorem countLT_add_countEQ_le_length (x : ℚ) :
    ∀ vs : List ℚ, vs.countP (fun y => decide (y < x)) +
      vs.countP (fun y => decide (y = x)) ≤ vs.length
  | [] => by simp
  | a :: vs => by
    have ih := countLT_add_countEQ_le_length x vs
    simp only [List.countP_cons, List.length_cons]
    by_cases h2 : a = x
    · subst h2
      simp [lt_irrefl]
      omega
    · by_cases h1 : a < x <;> simp [h1, h2] <;> omega

theorem countLE_le_countLT {x y : ℚ} (hxy : x < y) :
    ∀ vs : List ℚ, vs.countP (fun z => decide (z < x)) +
      vs.countP (fun z => decide (z = x)) ≤ vs.countP (fun z => decide (z < y))
  | [] => by simp
  | a :: vs => by
    have ih := countLE_le_countLT hxy vs
    simp only [List.countP_cons]
    by_cases h2 : a = x
    · subst h2
      simp [lt_irrefl, hxy]
      omega
    · by_cases h1 : a < x
      · have h3 : a < y := h1.trans hxy
        simp [h1, h2, h3]
        omega
      · by_cases h3 : a < y <;> simp [h1, h2, h3] <;> omega

theorem countEQ_pos {x : ℚ} {vs : List ℚ} (hx : x ∈ vs) :
    1 ≤ vs.countP fun y => decide (y = x) :=
  List.countP_pos_iff.mpr ⟨x, hx, by simp⟩

/-- Scores of pool members are at least `100 / n` and at most 100. -/
theorem rankScore_bounds (vs : List ℚ) (x : ℚ) (hx : x ∈ vs) :
    100 / (vs.length : ℚ) ≤ rankScore vs x ∧ rankScore vs x ≤ 100 := by
  have hn : 0 < (vs.length : ℚ) := by
    exact_mod_cast List.length_pos.mpr (List.ne_nil_of_mem hx)
  have hEQ : (1 : ℚ) ≤ (vs.countP fun y => decide (y = x) : ℕ) := by
    exact_mod_cast countEQ_pos hx
  have hsum : ((vs.countP fun y => decide (y < x) : ℕ) : ℚ) +
      ((vs.countP fun y => decide (y = x) : ℕ) : ℚ) ≤ (vs.length : ℚ) := by
    exact_mod_cast countLT_add_countEQ_le_length x vs
  have hLT : (0 : ℚ) ≤ ((vs.countP fun y => decide (y < x) : ℕ) : ℚ) := by
    positivity
  unfold rankScore
  constructor
  · rw [div_le_div_iff hn hn]
    nlinarith
  · rw [div_le_iff hn]
    nlinarith

/-- Scores are monotone in the underlying value. -/
theorem rankScore_mono (vs : List ℚ) {x y : ℚ} (hx : x ∈ vs) (hy : y ∈ vs)
    (hxy : x ≤ y) : rankScore vs x ≤ rankScore vs y := by
  rcases eq_or_lt_of_le hxy with rfl | hlt
  · exact le_refl _
  · have hn : 0 < (vs.length : ℚ) := by
      exact_mod_cast List.length_pos.mpr (List.ne_nil_of_mem hx)
    have hEQx : (1 : ℚ) ≤ (vs.countP fun z => decide (z = x) : ℕ) := by
      exact_mod_cast countEQ_pos hx
    have hEQy : (1 : ℚ) ≤ (vs.countP fun z => decide (z = y) : ℕ) := by
      exact_mod_cast countEQ_pos hy
    have hkey : ((vs.countP fun z => decide (z < x) : ℕ) : ℚ) +
        ((vs.countP fun z => decide (z = x) : ℕ) : ℚ) ≤
        ((vs.countP fun z => decide (z < y) : ℕ) : ℚ) := by
      exact_mod_cast countLE_le_countLT hlt vs
    unfold rankScore
    rw [div_le_div_iff hn hn]
    nlinarith

/-- Scores only depend on the pool as a multiset. -/
theorem rankScore_perm {vs vs' : List ℚ} (h : vs.Perm vs') (x : ℚ) :
    rankScore vs x = rankScore vs' x := by
  unfold rankScore
  rw [h.countP_eq, h.countP_eq, h.length_eq]

/-- A singleton pool scores exactly 100. -/
theorem rankScore_singleton (x : ℚ) : rankScore [x] x = 100 := by
  unfold rankScore
  simp [List.countP_cons, lt_irrefl]

/-- C10: every rating actually assigned by `calc_rs_rating` is strictly
positive — at least `100 / n` for `n` valid returns — and at most 100, and a
universe with exactly one valid ticker always receives exactly 100, so a
singleton universe passes any RS threshold up to 100 whatever the sign of its
return. -/
theorem calc_rs_rating_range :
    (∀ (rets : List (Option ℚ)) (r : ℚ), some r ∈ calc_rs_rating rets →
      0 < r ∧ 100 / ((rets.filterMap id).length : ℚ) ≤ r ∧ r ≤ 100) ∧
    (∀ x : ℚ, calc_rs_rating [some x] = [some 100]) := by
  constructor
  · intro rets r hr
    unfold calc_rs_rating at hr
    rw [List.mem_map] at hr
    obtain ⟨o, ho, hmap⟩ := hr
    cases o with
    | none => simp at hmap
    | some x =>
      have hx : x ∈ rets.filterMap id := List.mem_filterMap.mpr ⟨some x, ho, rfl⟩
      have hxr : rankScore (rets.filterMap id) x = r := by
        simpa using hmap
      obtain ⟨h1, h2⟩ := rankScore_bounds (rets.filterMap id) x hx
      rw [hxr] at h1 h2
      have hn : (0:ℚ) < ((rets.filterMap id).length : ℚ) := by
        exact_mod_cast List.length_pos.mpr (List.ne_nil_of_mem hx)
      refine ⟨?_, h1, h2⟩
      have hq : (0:ℚ) < 100 / ((rets.filterMap id).length : ℚ) := by positivity
      linarith
  · intro x
    unfold calc_rs_rating
    simp [rankScore_singleton]

/-- C10 witness: the bounds at the singleton pool containing return 5. -/
theorem calc_rs_rating_range_witness :
    (0:ℚ) < 100 ∧ 100 / ((([some (5:ℚ)].filterMap id).length : ℚ)) ≤ 100 ∧
      (100:ℚ) ≤ 100 :=
  calc_rs_rating_range.1 [some 5] 100 (by decide)

/-- Folding a max over a constant list. -/
theorem foldl_natmax_const (L : ℕ) :
    ∀ (l : List ℕ) (a : ℕ), (∀ x ∈ l, x = L) → l ≠ [] → l.foldl Nat.max a = Nat.max a L
  | [], _, _, h => absurd rfl h
  | [x], a, hall, _ => by
    rw [List.foldl_cons, List.foldl_nil, hall x (by simp)]
  | x :: y :: rest, a, hall, _ => by
    have hx : x = L := hall x (by simp)
    rw [List.foldl_cons,
      foldl_natmax_const L (y :: rest) (Nat.max a x)
        (fun z hz => hall z (List.mem_cons_of_mem x hz)) (by simp)]
    subst hx
    simp only [Nat.max_def]
    split_ifs <;> omega

/-- Collapsing a filterMap whose function is an if-none pattern. -/
theorem filterMap_ite_none {α β : Type} (P : α → Prop) [DecidablePred P] (f : α → β) :
    ∀ l : List α, (l.filterMap fun a => if P a then none else some (f a)) =
      (l.filter fun a => decide ¬ P a).map f
  | [] => rfl
  | a :: l => by
    by_cases h : P a <;>
      simp [h, filterMap_ite_none P f l]

/-- Looking up a mapped association list with distinct keys. -/
theorem lookup_map_eq {β γ : Type} :
    ∀ (l : List (String × β)) (f : String × β → γ) (p : String × β),
      (l.map Prod.fst).Nodup → p ∈ l →
      (l.map fun q => (q.1, f q)).lookup p.1 = some (f p)
  | [], _, p, _, hp => absurd hp (List.not_mem_nil p)
  | q :: rest, f, p, hnd, hp => by
    simp only [List.map_cons, List.lookup]
    by_cases he : p.1 = q.1
    · have hpq : p = q := by
        rcases List.mem_cons.mp hp with h | h
        · exact h
        · exfalso
          have h1 : p.1 ∈ rest.map Prod.fst := List.mem_map_of_mem _ h
          have h2 : (q.1 :: rest.map Prod.fst).Nodup := by simpa using hnd
          rw [he] at h1
          exact (List.nodup_cons.mp h2).1 h1
      subst hpq
      simp
    · have hbeq : (p.1 == q.1) = false := by
        simpa using he
      simp only [hbeq]
      have hprest : p ∈ rest := by
        rcases List.mem_cons.mp hp with h | h
        · exact absurd (congrArg Prod.fst h) he
        · exact h
      have hnd2 : (rest.map Prod.fst).Nodup :=
        (List.nodup_cons.mp (by simpa using hnd)).2
      exact lookup_map_eq rest f p hnd2 hprest

/-- On a column as long as the frame, `colPct` computes the claim's own-series
return guarded by the positive base price. -/
theorem colPct_eq {L lookback : ℕ} (s : List ℚ) (hL : s.length = L)
    (hLB : lookback + 1 ≤ L) :
    colPct (L - 1 - lookback) (L - 1) s =
      if specBase lookback s ≤ 0 then none else some (specReturn lookback s) := by
  have hlt1 : L - 1 - lookback < s.length := by omega
  have hlt2 : L - 1 < s.length := by omega
  have e1 : specBase lookback s = s[L - 1 - lookback] := by
    unfold specBase
    rw [hL, List.getD_eq_getElem?_getD, List.getElem?_eq_getElem hlt1, Option.getD_some]
  have e2 : specReturn lookback s = (s[L - 1] / s[L - 1 - lookback] - 1) * 100 := by
    unfold specReturn
    rw [hL, List.getD_eq_getElem?_getD, List.getD_eq_getElem?_getD,
      List.getElem?_eq_getElem hlt1, List.getElem?_eq_getElem hlt2,
      Option.getD_some, Option.getD_some]
  unfold colPct
  simp only [List.getElem?_eq_getElem hlt1, List.getElem?_eq_getElem hlt2]
  rw [e1, e2]

/-- Zipping a keyed list with the mapped ratings of its values collapses to a
single map. -/
theorem zipWith_key_rating {α β γ : Type} (key : α → String) (h : α → β)
    (g : β → γ) :
    ∀ l : List α,
      List.zipWith (fun (p : String × β) r => (p.1, r)) (l.map fun a => (key a, h a))
        ((l.map fun a => h a).map g) = l.map fun a => (key a, g (h a))
  | [] => rfl
  | a :: l => by
    simp only [List.map_cons, List.zipWith_cons_cons, zipWith_key_rating key h g l]

/-- When every series shares one length `L ≥ lookback + 1` and ticker names
are distinct, `compute_rs_universe` returns, per sorted column, exactly the
claim-side score. -/
theorem compute_rs_universe_eq (u : List (String × List ℚ)) (L lookback : ℕ)
    (hne : u ≠ []) (hnd : (u.map Prod.fst).Nodup)
    (hlen : ∀ p ∈ u, p.2.length = L) (hLB : lookback + 1 ≤ L) :
    compute_rs_universe u lookback =
      Except.ok ((sortByTicker u).map fun p => (p.1, specScore u lookback p)) := by
  have hperm : List.Perm (sortByTicker u) u := List.perm_insertionSort _ u
  have hclen : ∀ p ∈ sortByTicker u, p.2.length = L := fun p hp =>
    hlen p (hperm.mem_iff.mp hp)
  have hcne : sortByTicker u ≠ [] := by
    intro h
    apply hne
    have hl := hperm.length_eq
    rw [h] at hl
    exact List.length_eq_zero.mp hl.symm
  have hcnd : ((sortByTicker u).map Prod.fst).Nodup :=
    (List.Perm.nodup_iff (hperm.map Prod.fst)).mpr hnd
  have hmaxlist : ∀ x ∈ (sortByTicker u).map fun p => p.2.length, x = L := by
    intro x hx
    obtain ⟨p, hp, rfl⟩ := List.mem_map.mp hx
    exact hclen p hp
  have hmapne : (sortByTicker u).map (fun p => p.2.length) ≠ [] := by
    simpa using hcne
  have hmax : ((sortByTicker u).map fun p => p.2.length).foldl Nat.max 0 = L := by
    rw [foldl_natmax_const L _ 0 hmaxlist hmapne]
    simp [Nat.max_def]
  have hval : (sortByTicker u).filter (fun p => decide (lookback + 1 ≤ p.2.length)) =
      sortByTicker u := by
    apply List.filter_eq_self.mpr
    intro p hp
    simp only [hclen p hp, decide_eq_true_eq]
    exact hLB
  have hrank : ∀ x, rankScore
      (((sortByTicker u).filter fun p => decide ¬ (specBase lookback p.2 ≤ 0)).map
        fun p => specReturn lookback p.2) x =
      rankScore (specValidReturns u lookback) x := by
    intro x
    apply rankScore_perm
    have h1 := (hperm.filter (fun p => decide ¬ (specBase lookback p.2 ≤ 0))).map
      (fun p => specReturn lookback p.2)
    apply h1.trans
    have h3 : (u.filter fun p => decide ¬ (specBase lookback p.2 ≤ 0)) =
        (u.filter fun p =>
          decide (lookback + 1 ≤ p.2.length) && decide (0 < specBase lookback p.2)) := by
      apply List.filter_congr
      intro p hp
      simp [hlen p hp, hLB, not_le]
    unfold specValidReturns
    rw [h3]
  simp only [compute_rs_universe]
  rw [if_neg (by simpa [List.isEmpty_iff] using hne)]
  rw [hval]
  rw [if_neg (by simpa [List.isEmpty_iff] using hcne)]
  rw [hmax]
  have hpcts : ((sortByTicker u).map fun p => (p.1, colPct (L - 1 - lookback) (L - 1) p.2)) =
      (sortByTicker u).map fun p =>
        (p.1, if specBase lookback p.2 ≤ 0 then none else some (specReturn lookback p.2)) :=
    List.map_congr_left fun p hp => by rw [colPct_eq p.2 (hclen p hp) hLB]
  rw [hpcts]
  simp only [calc_rs_rating]
  have hsnd : (((sortByTicker u).map fun p =>
      (p.1, if specBase lookback p.2 ≤ 0 then none else some (specReturn lookback p.2))).map
        fun q => q.2) =
      (sortByTicker u).map fun p =>
        (if specBase lookback p.2 ≤ 0 then none else some (specReturn lookback p.2)) := by
    rw [List.map_map]
    rfl
  rw [hsnd]
  have hvs : ((sortByTicker u).map fun p =>
      (if specBase lookback p.2 ≤ 0 then none else some (specReturn lookback p.2))).filterMap id =
      ((sortByTicker u).filter fun p => decide ¬ (specBase lookback p.2 ≤ 0)).map
        fun p => specReturn lookback p.2 := by
    rw [List.filterMap_map]
    exact filterMap_ite_none _ _ _
  rw [hvs]
  rw [zipWith_key_rating (fun p => p.1)
    (fun p => if specBase lookback p.2 ≤ 0 then none else some (specReturn lookback p.2))
    (Option.map (rankScore
      (((sortByTicker u).filter fun p => decide ¬ (specBase lookback p.2 ≤ 0)).map
        fun p => specReturn lookback p.2)))
    (sortByTicker u)]
  apply congrArg Except.ok
  apply List.map_congr_left
  intro p hp
  rw [lookup_map_eq (sortByTicker u) _ p hcnd hp, Option.getD_some]
  by_cases hb : specBase lookback p.2 ≤ 0
  · simp [specScore, hb, not_lt.mpr hb]
  · have h0 : 0 < specBase lookback p.2 := not_le.mp hb
    have hL1 : lookback + 1 ≤ p.2.length := by
      rw [hclen p hp]
      exact hLB
    simp only [if_neg hb, Option.map_some']
    rw [hrank]
    unfold specScore
    rw [if_pos ⟨hL1, h0⟩]

/-- C4 amended: when every series of the non-empty universe has one common
length `L ≥ lookback + 1` (so the concatenated frame rows align with every
ticker's own positions) and ticker names are distinct, each ticker with a
positive base price receives the 0–100 fractional (average-tie) percentile
rank of its own return among the tickers with positive base price; assigned
scores lie in `(0, 100] ⊆ [0, 100]`, a ticker whose return is at least
another's scores at least as high (so a maximal return receives a maximal
score, and ties receive equal scores), and a non-positive base price receives
no score.  With unequal lengths the code reads the union-aligned frame rows
instead of each ticker's own positions, so a ticker with `lookback + 1`
values can be excluded — the counterexample. -/
theorem compute_rs_universe_amended (u : List (String × List ℚ)) (L lookback : ℕ)
    (hne : u ≠ []) (hnd : (u.map Prod.fst).Nodup)
    (hlen : ∀ p ∈ u, p.2.length = L) (hLB : lookback + 1 ≤ L) :
    (∃ res, compute_rs_universe u lookback = Except.ok res ∧
        res.length = u.length ∧
        ∀ p ∈ u, res.lookup p.1 = some (specScore u lookback p)) ∧
    (∀ p ∈ u, ∀ r : ℚ, specScore u lookback p = some r →
        0 < r ∧ 100 / ((specValidReturns u lookback).length : ℚ) ≤ r ∧ r ≤ 100) ∧
    (∀ p ∈ u, ∀ q ∈ u, ∀ rp rq : ℚ, specScore u lookback p = some rp →
        specScore u lookback q = some rq →
        specReturn lookback p.2 ≤ specReturn lookback q.2 → rp ≤ rq) ∧
    (∀ p ∈ u, (specScore u lookback p = none ↔ specBase lookback p.2 ≤ 0)) := by
  have hperm : List.Perm (sortByTicker u) u := List.perm_insertionSort _ u
  have hcnd : ((sortByTicker u).map Prod.fst).Nodup :=
    (List.Perm.nodup_iff (hperm.map Prod.fst)).mpr hnd
  have hmem : ∀ p ∈ u, 0 < specBase lookback p.2 →
      specReturn lookback p.2 ∈ specValidReturns u lookback := by
    intro p hp h2
    unfold specValidReturns
    refine List.mem_map_of_mem _ (List.mem_filter.mpr ⟨hp, ?_⟩)
    have h1 : lookback + 1 ≤ p.2.length := by rw [hlen p hp]; exact hLB
    simp [h1, h2]
  refine ⟨⟨(sortByTicker u).map fun p => (p.1, specScore u lookback p),
      compute_rs_universe_eq u L lookback hne hnd hlen hLB, ?_, ?_⟩, ?_, ?_, ?_⟩
  · rw [List.length_map]
    exact hperm.length_eq
  · intro p hp
    exact lookup_map_eq (sortByTicker u) _ p hcnd (hperm.mem_iff.mpr hp)
  · intro p hp r hr
    unfold specScore at hr
    by_cases hc : lookback + 1 ≤ p.2.length ∧ 0 < specBase lookback p.2
    · rw [if_pos hc] at hr
      have hrr := Option.some.inj hr
      have hm := hmem p hp hc.2
      obtain ⟨h1, h2⟩ := rankScore_bounds _ _ hm
      rw [hrr] at h1 h2
      refine ⟨?_, h1, h2⟩
      have hn : (0:ℚ) < ((specValidReturns u lookback).length : ℚ) := by
        exact_mod_cast List.length_pos.mpr (List.ne_nil_of_mem hm)
      have hq : (0:ℚ) < 100 / ((specValidReturns u lookback).length : ℚ) := by
        positivity
      linarith
    · rw [if_neg hc] at hr
      cases hr
  · intro p hp q hq rp rq hrp hrq hle
    unfold specScore at hrp hrq
    by_cases hcp : lookback + 1 ≤ p.2.length ∧ 0 < specBase lookback p.2
    · by_cases hcq : lookback + 1 ≤ q.2.length ∧ 0 < specBase lookback q.2
      · rw [if_pos hcp] at hrp
        rw [if_pos hcq] at hrq
        have e1 := Option.some.inj hrp
        have e2 := Option.some.inj hrq
        rw [← e1, ← e2]
        exact rankScore_mono _ (hmem p hp hcp.2) (hmem q hq hcq.2) hle
      · rw [if_neg hcq] at hrq
        cases hrq
    · rw [if_neg hcp] at hrp
      cases hrp
  · intro p hp
    have hL1 : lookback + 1 ≤ p.2.length := by rw [hlen p hp]; exact hLB
    unfold specScore
    by_cases h0 : 0 < specBase lookback p.2
    · rw [if_pos ⟨hL1, h0⟩]
      simp [not_le.mpr h0]
    · rw [if_neg (by tauto)]
      simp [not_lt.mp h0]

set_option maxRecDepth 100000 in
/-- C4 counterexample: in `uC4` ticker B has `lookback + 1 = 2` values and a
positive base price, and its own-series return (200%) is the highest in the
universe, yet `compute_rs_universe` gives it no score: B's column is one row
shorter than the concatenated frame, so the frame's last row holds NaN for B
and the return is computed from frame rows, not from B's own positions.
Ticker A receives 100 as the only ranked return. -/
theorem compute_rs_universe_alignment_counterexample :
    compute_rs_universe uC4 1 =
      Except.ok [("A", some 100), ("B", (none : Option ℚ))] ∧
    1 + 1 ≤ ([(1:ℚ), 3] : List ℚ).length ∧
    (0:ℚ) < specBase 1 [(1:ℚ), 3] ∧
    specReturn 1 [(1:ℚ), 3] = 200 ∧ specReturn 1 [(1:ℚ), 2, 4] = 100 := by
  have hle : ("A" : String) ≤ "B" := by
    rw [String.le_iff_toList_le]
    decide
  have hsort : sortByTicker uC4 = uC4 := by
    simp [sortByTicker, uC4, List.insertionSort, List.orderedInsert, hle]
  refine ⟨?_, by decide, by decide, by decide, by decide⟩
  simp only [compute_rs_universe]
  rw [hsort]
  rfl

set_option maxRecDepth 100000 in
/-- C4 witness: the amended characterisation applied to an aligned two-ticker
universe of length-2 series. -/
theorem compute_rs_universe_amended_witness :
    (∃ res, compute_rs_universe [("A", [1, 2]), ("B", [1, 3])] 1 = Except.ok res ∧
        res.length = ([("A", [(1:ℚ), 2]), ("B", [1, 3])]).length ∧
        ∀ p ∈ [("A", [(1:ℚ), 2]), ("B", [1, 3])],
          res.lookup p.1 = some (specScore [("A", [1, 2]), ("B", [1, 3])] 1 p)) ∧
    (∀ p ∈ [("A", [(1:ℚ), 2]), ("B", [1, 3])], ∀ r : ℚ,
        specScore [("A", [1, 2]), ("B", [1, 3])] 1 p = some r →
        0 < r ∧
          100 / ((specValidReturns [("A", [1, 2]), ("B", [1, 3])] 1).length : ℚ) ≤ r ∧
          r ≤ 100) ∧
    (∀ p ∈ [("A", [(1:ℚ), 2]), ("B", [1, 3])],
        ∀ q ∈ [("A", [(1:ℚ), 2]), ("B", [1, 3])], ∀ rp rq : ℚ,
        specScore [("A", [1, 2]), ("B", [1, 3])] 1 p = some rp →
        specScore [("A", [1, 2]), ("B", [1, 3])] 1 q = some rq →
        specReturn 1 p.2 ≤ specReturn 1 q.2 → rp ≤ rq) ∧
    (∀ p ∈ [("A", [(1:ℚ), 2]), ("B", [1, 3])],
        (specScore [("A", [1, 2]), ("B", [1, 3])] 1 p = none ↔
          specBase 1 p.2 ≤ 0)) :=
  compute_rs_universe_amended [("A", [1, 2]), ("B", [1, 3])] 2 1 (by decide)
    (by decide) (by decide) (by decide)

/-- C5 counterexample: `pd.concat` of an empty mapping raises `ValueError`
("No objects to concatenate"), so `compute_rs_universe` of an empty universe
is an error, not an empty result. -/
theorem compute_rs_universe_empty_counterexample :
    compute_rs_universe [] 126 = Except.error "No objects to concatenate" := rfl

/-- C5 amended: `compute_rs_universe` raises exactly on the empty mapping —
an empty universe propagates `pd.concat`'s `ValueError`, while every
non-empty universe (even one with no sufficiently long series) returns a
result without error. -/
theorem compute_rs_universe_empty_amended (u : List (String × List ℚ)) (lb : ℕ) :
    (compute_rs_universe u lb).isOk = !u.isEmpty := by
  cases u with
  | nil => rfl
  | cons a u =>
    simp only [compute_rs_universe]
    rw [if_neg (by simp)]
    split <;> rfl

/-! ## C6 — trend-template totality and guards -/

set_option maxRecDepth 100000 in
/-- C6 counterexample: on weekly closes 0, 1, …, 51 with RS 100 the trailing
52-week low is 0, yet the weekly template passes — its percent-from-low
computation divides by the zero low (yielding +∞ ≥ 30 under NumPy float
semantics) instead of failing closed as the claim requires. -/
theorem weekly_passes_zero_low_counterexample :
    WeeklyTrendTemplate.passes closes52 100 none none 4 = Except.ok true ∧
    trailingLow52 closes52 ≤ 0 := ⟨rfl, by decide⟩

/-- C6 amended: the daily `TrendTemplate.passes` is total and fail-closed —
with fewer than 252 closes it returns False, and when the percent positions
are computed internally a non-positive trailing 252-bar low returns False
before any division.  The weekly variant returns a value (never raises) for
every non-empty series and fails closed on missing moving averages, but it
has no such guard for a non-positive trailing low (see the counterexample)
and raises on an empty series. -/
theorem trend_template_guards_amended :
    (∀ (closes : List ℚ) (pfl pfh : Option ℚ) (lb : ℕ), closes.length < 252 →
        TrendTemplate.passes closes pfl pfh lb = false) ∧
    (∀ (closes : List ℚ) (lb : ℕ), 252 ≤ closes.length →
        listMin (closes.drop (closes.length - 252)) ≤ 0 →
        TrendTemplate.passes closes none none lb = false) ∧
    (∀ (closes : List ℚ) (rs : ℚ) (pfl pfh : Option ℚ) (lb : ℕ), closes ≠ [] →
        (WeeklyTrendTemplate.passes closes rs pfl pfh lb).isOk = true) ∧
    (∀ (closes : List ℚ) (rs : ℚ) (pfl pfh : Option ℚ) (lb : ℕ), closes ≠ [] →
        closes.length < 10 →
        WeeklyTrendTemplate.passes closes rs pfl pfh lb = Except.ok false) := by
  refine ⟨?_, ?_, ?_, ?_⟩
  · intro closes pfl pfh lb h
    simp only [TrendTemplate.passes, if_pos h]
  · intro closes lb h252 hlow
    simp only [TrendTemplate.passes]
    rw [if_neg (by omega)]
    have hmin : ((rollingOpt listMin 252 closes).getD (closes.length - 1) none).getD 0 =
        listMin (closes.drop (closes.length - 252)) := by
      unfold rollingOpt
      rw [getD_range_map _ _ (by omega)]
      rw [if_pos (by omega)]
      rw [Option.getD_some]
      have e1 : closes.length - 1 + 1 = closes.length := by omega
      rw [e1, List.take_length]
    rw [hmin]
    rw [if_pos (Or.inl hlow)]
  · intro closes rs pfl pfh lb hne
    simp only [WeeklyTrendTemplate.passes]
    rw [if_neg (by simpa [List.isEmpty_iff] using hne)]
    rfl
  · intro closes rs pfl pfh lb hne h10
    have hpos : 0 < closes.length := List.length_pos.mpr hne
    have hma30 : ((rollingMean 30 closes)[closes.length - 1]?).getD none = none := by
      unfold rollingMean rollingOpt
      rw [List.getElem?_map, List.getElem?_range (by omega : closes.length - 1 < closes.length)]
      simp only [Option.map_some', Option.getD_some]
      rw [if_neg (by omega)]
    simp only [WeeklyTrendTemplate.passes]
    rw [if_neg (by simpa [List.isEmpty_iff] using hne)]
    simp [hma30, gtOpt]

/-- Folding `qmin` over copies of the seed keeps the seed. -/
theorem foldl_qmin_replicate (x : ℚ) : ∀ n, (List.replicate n x).foldl qmin x = x
  | 0 => rfl
  | n + 1 => by
    rw [List.replicate_succ, List.foldl_cons]
    have h : qmin x x = x := by simp [qmin]
    rw [h, foldl_qmin_replicate x n]

/-- The minimum of 252 zero closes is zero. -/
theorem listMin_replicate_zero : listMin (List.replicate 252 (0:ℚ)) = 0 := by
  rw [(by norm_num : (252:ℕ) = 251 + 1), List.replicate_succ]
  simp only [listMin]
  exact foldl_qmin_replicate 0 251

/-- C6 witness: the guards at concrete inputs — a one-bar daily series, a
flat-at-zero 252-bar daily series, and a one-bar weekly series. -/
theorem trend_template_guards_amended_witness :
    TrendTemplate.passes [1] none none 30 = false ∧
    TrendTemplate.passes (List.replicate 252 0) none none 30 = false ∧
    (WeeklyTrendTemplate.passes [1] 0 none none 4).isOk = true ∧
    WeeklyTrendTemplate.passes [1] 0 none none 4 = Except.ok false :=
  ⟨trend_template_guards_amended.1 [1] none none 30
     (by simp only [List.length_singleton]; omega),
   trend_template_guards_amended.2.1 (List.replicate 252 0) 30
     (by simp only [List.length_replicate]; omega)
     (by
       simp only [List.length_replicate, Nat.sub_self, List.drop_zero]
       rw [listMin_replicate_zero]),
   trend_template_guards_amended.2.2.1 [1] 0 none none 4 (List.cons_ne_nil 1 []),
   trend_template_guards_amended.2.2.2 [1] 0 none none 4 (List.cons_ne_nil 1 [])
     (by simp only [List.length_singleton]; omega)⟩

/-! ## C7 — risk sizing -/

/-- Clamping Python's toward-zero truncation at 1 equals clamping the floor. -/
theorem ratTrunc_clamp (q : ℚ) :
    (if ratTrunc q < 1 then 1 else ratTrunc q) = max ⌊q⌋ 1 := by
  unfold ratTrunc
  by_cases h : 0 ≤ q
  · rw [if_pos h]
    rcases le_or_lt 1 ⌊q⌋ with h1 | h1
    · rw [if_neg (by omega), max_eq_left h1]
    · rw [if_pos h1, max_eq_right (le_of_lt h1)]
  · rw [if_neg h]
    have hc : ⌈q⌉ ≤ (0 : ℤ) := by
      rw [Int.ceil_le]
      push_cast
      linarith [not_le.mp h]
    have hf : ⌊q⌋ ≤ ⌈q⌉ := Int.floor_le_ceil q
    rw [if_pos (by omega), max_eq_right (by omega)]

/-- C7: the sizing block computes `risk_per_share = atr * mult`, skips the
candidate when it is non-positive, and otherwise orders
`max(⌊cash·risk_pct / risk_per_share⌋, 1)` shares with stop
`breakout_price - risk_per_share`; at atr 2, multiplier 1.5, equity 100000
and risk 1.25% this is 416 shares with a stop 3.0 below the breakout. -/
theorem riskSize_spec :
    (∀ cash atr bp risk_pct mult : ℚ, atr * mult ≤ 0 →
        riskSize cash atr bp risk_pct mult = none) ∧
    (∀ cash atr bp risk_pct mult : ℚ, 0 < atr * mult →
        riskSize cash atr bp risk_pct mult =
          some (max ⌊cash * risk_pct / (atr * mult)⌋ 1, bp - atr * mult)) ∧
    (∀ bp : ℚ, riskSize 100000 2 bp (1/80) (3/2) = some (416, bp - 3)) := by
  refine ⟨?_, ?_, ?_⟩
  · intro cash atr bp risk_pct mult h
    unfold riskSize
    rw [if_pos h]
  · intro cash atr bp risk_pct mult h
    unfold riskSize
    rw [if_neg (not_le.mpr h)]
    show some (if ratTrunc (cash * risk_pct / (atr * mult)) < 1 then 1
        else ratTrunc (cash * risk_pct / (atr * mult)), bp - atr * mult) = _
    rw [ratTrunc_clamp]
  · intro bp
    show (if (2:ℚ) * (3/2) ≤ 0 then none
      else some (if ratTrunc ((100000:ℚ) * (1/80) / (2 * (3/2))) < 1 then 1
        else ratTrunc ((100000:ℚ) * (1/80) / (2 * (3/2))), bp - 2 * (3/2))) =
      some (416, bp - 3)
    rw [show (2:ℚ) * (3/2) = 3 from by norm_num]
    rw [show (100000:ℚ) * (1/80) / 3 = 1250/3 from by norm_num]
    rw [if_neg (by norm_num : ¬ (3:ℚ) ≤ 0)]
    have ht : ratTrunc ((1250:ℚ)/3) = 416 := by
      unfold ratTrunc
      rw [if_pos (by norm_num)]
      exact Int.floor_eq_iff.mpr ⟨by norm_num, by norm_num⟩
    rw [ht]
    norm_num

/-- C7 witness: both branches at concrete inputs. -/
theorem riskSize_spec_witness :
    riskSize 1 (-1) 0 1 1 = none ∧
    riskSize 100000 2 50 (1/80) (3/2) =
      some (max ⌊(100000:ℚ) * (1/80) / (2 * (3/2))⌋ 1, 50 - 2 * (3/2)) :=
  ⟨riskSize_spec.1 1 (-1) 0 1 1 (by norm_num),
   riskSize_spec.2.1 100000 2 50 (1/80) (3/2) (by norm_num)⟩

/-! ## C8 — exit-rule engine construction -/

/-- C8: constructing the exit-rule engine succeeds exactly on 11 or more bars
of history; with fewer — for example exactly 10 — it raises the
insufficient-data error instead of silently returning false. -/
theorem exit_strategy_init_spec :
    (∀ (df : List Bar) (e : ℚ), (ExitStrategy.init df e).isOk = true ↔ 11 ≤ df.length) ∧
    (∀ e : ℚ, ExitStrategy.init (List.replicate 10 default) e =
      Except.error "ExitStrategy requires at least 11 bars") := by
  constructor
  · intro df e
    unfold ExitStrategy.init
    by_cases h : df.length < 11
    · rw [if_pos h]
      exact iff_of_false (by simp [Except.isOk, Except.toBool]) (by omega)
    · rw [if_neg h]
      exact iff_of_true (by simp [Except.isOk, Except.toBool]) (by omega)
  · intro e
    unfold ExitStrategy.init
    rw [if_pos (by simp only [List.length_replicate]; omega)]

/-! ## C9 — exit triggers -/

/-- C9: with at least 11 bars, `atr_trail n` fires exactly when the latest Low
breaches the fixed stop `entry - ATR10(latest bar) * n` — anchored to the
entry price, never ratcheting with later highs — `ema_cross` fires exactly
when the latest Close is below the 10-period EMA of Close, and either trigger
alone makes the bot's exit decision fire. -/
theorem exit_rules_spec (df : List Bar) (entry n : ℚ) (h11 : 11 ≤ df.length) :
    (ExitStrategy.atr_trail df entry n = true ↔
      lastLow df < entry - specAtrLast df * n) ∧
    (ExitStrategy.ema_cross df = true ↔
      lastClose df < specEma10 (df.map Bar.close)) ∧
    (ExitStrategy.atr_trail df entry n = true → exitDecision df entry n = true) ∧
    (ExitStrategy.ema_cross df = true → exitDecision df entry n = true) := by
  have hlen := trList_length df
  have hatr : (atr10 df).getD (df.length - 1) none = some (specAtrLast df) := by
    unfold atr10 rollingMean rollingOpt specAtrLast
    rw [getD_range_map _ _ (by omega)]
    rw [if_pos (by omega)]
    have e1 : df.length - 1 + 1 = df.length := by omega
    rw [e1, ← hlen, List.take_length, hlen]
    norm_num
  refine ⟨?_, ?_, ?_, ?_⟩
  · unfold ExitStrategy.atr_trail
    rw [hatr]
    simp only [decide_eq_true_eq]
  · have hne : df ≠ [] := by
      intro h
      rw [h] at h11
      simp at h11
    cases df with
    | nil => exact absurd rfl hne
    | cons b rest =>
      unfold ExitStrategy.ema_cross specEma10 ema10Last
      simp only [List.map_cons, decide_eq_true_eq]
  · intro h
    unfold exitDecision
    rw [h]
    simp
  · intro h
    unfold exitDecision
    rw [h]
    simp

/-- C9 witness: the trigger characterisation on eleven identical bars with an
entry far above the market. -/
theorem exit_rules_spec_witness :
    (ExitStrategy.atr_trail bars11 10 1 = true ↔
      lastLow bars11 < 10 - specAtrLast bars11 * 1) ∧
    (ExitStrategy.ema_cross bars11 = true ↔
      lastClose bars11 < specEma10 (bars11.map Bar.close)) ∧
    (ExitStrategy.atr_trail bars11 10 1 = true → exitDecision bars11 10 1 = true) ∧
    (ExitStrategy.ema_cross bars11 = true → exitDecision bars11 10 1 = true) :=
  exit_rules_spec bars11 10 1 (by decide)
